import Mathlib

/-!
Shallow embedding of the script-synchronization core of the repository:
the content hash (src/helpers/Git.js), the version comparison and the
pull-direction classification loop (src/unnamed/part_000), the version
bump (src/scripts/Push.js), and the push/pull driver flows
(src/scripts/Push.js and src/unnamed/part_000).

JS strings are modelled as lists of characters (`Str`); file contents are
modelled as their lists of UTF-16 code units (`Content`), which is what
`charCodeAt` iterates over.
-/

namespace Scriptable

abbrev Str := List Char

abbrev Content := List Nat

abbrev Path := List Char

/-- 32-bit signed wrap of an integer: the effect of the JS `| 0`
truncation (ToInt32). `2147483648 = 2^31`, `4294967296 = 2^32`. -/
def toInt32 (x : Int) : Int := (x + 2147483648) % 4294967296 - 2147483648

/-- One iteration of the loop body of `computeHash` in src/helpers/Git.js:
`hash = ((hash << 5) - hash) + chr; hash |= 0;`.  The shift `hash << 5`
itself wraps its result to 32-bit signed (JS `<<` returns an Int32); the
subtraction and addition are exact; the `|= 0` wraps again. -/
def hashStep (h : Int) (c : Nat) : Int := toInt32 (toInt32 (h * 32) - h + (c : Int))

/-- Lowercase hexadecimal digit, as produced by JS `Number.toString(16)`. -/
def hexDigit (n : Nat) : Char := if n < 10 then Char.ofNat (48 + n) else Char.ofNat (87 + n)

/-- Fuel-driven most-significant-first hexadecimal digits of a natural
number (the fuel is an upper bound on the digit count so the recursion is
structural). -/
def natToHexAux : Nat → Nat → List Char
  | 0, _ => []
  | fuel + 1, n => if n < 16 then [hexDigit n] else natToHexAux fuel (n / 16) ++ [hexDigit (n % 16)]

def natToHex (n : Nat) : List Char := natToHexAux (n + 1) n

/-- JS `Number.prototype.toString(16)` on a 32-bit signed integer value:
hexadecimal digits of the absolute value, with a leading `-` when the
value is negative. -/
def intToHex (v : Int) : List Char :=
  if v < 0 then '-' :: natToHex (-v).toNat else natToHex v.toNat

/-- `computeHash` from src/helpers/Git.js: seed 0, fold `hashStep` over the
UTF-16 code units of the input, render the signed 32-bit result in
hexadecimal. -/
def computeHash (s : Content) : Str := intToHex (s.foldl hashStep 0)

/-- The hash as the spec's own words describe it (spec §4.3): for each code
unit `c`, `hash = hash * 31 + c` truncated to 32-bit signed arithmetic,
then hexadecimal rendering of the signed result. -/
def hashStepSpec (h : Int) (c : Nat) : Int := toInt32 (h * 31 + (c : Int))

def computeHashSpec (s : Content) : Str := intToHex (s.foldl hashStepSpec 0)

theorem hashStep_eq_spec (h : Int) (c : Nat) : hashStep h c = hashStepSpec h c := by
  unfold hashStep hashStepSpec toInt32
  omega

theorem foldl_hashStep_eq (s : Content) : ∀ h : Int, s.foldl hashStep h = s.foldl hashStepSpec h := by
  induction s with
  | nil => intro h; rfl
  | cons c rest ih => intro h; simp only [List.foldl_cons, hashStep_eq_spec, ih]

/-- JS `String.prototype.split` with a one-character separator, on the
character list model (`"a.b".split "." = ["a","b"]`, `"".split "." = [""]`,
`".".split "." = ["", ""]`). -/
def splitOn (sep : Char) : Str → List Str
  | [] => [[]]
  | c :: rest =>
    match splitOn sep rest with
    | [] => [[c]]
    | h :: t => if c = sep then [] :: h :: t else (c :: h) :: t

def digitVal (c : Char) : Nat := c.toNat - 48

def decDigitsToNat (s : Str) : Nat := s.foldl (fun acc c => acc * 10 + digitVal c) 0

/-- Model of the JS `Number` builtin restricted to the strings that arise
as version components in this repository: the empty string converts to 0,
a string of decimal digits to its value, a `-` followed by decimal digits
to the negated value, and anything else to NaN (`none`).  NaN compares
neither greater nor less than anything, which the callers below depend
on. -/
def jsNumber (s : Str) : Option Int :=
  if s = [] then some 0
  else if s.all (·.isDigit) then some (decDigitsToNat s)
  else
    match s with
    | '-' :: rest =>
      if rest ≠ [] ∧ rest.all (·.isDigit) then some (-(decDigitsToNat rest : Int)) else none
    | _ => none

/-- List indexing returning `none` out of range (JS `arr[i]` yielding
`undefined`). -/
def nth {α : Type} : List α → Nat → Option α
  | [], _ => none
  | x :: _, 0 => some x
  | _ :: xs, n + 1 => nth xs n

/-- One iteration of the comparison loop in `compareVersions`
(src/unnamed/part_000): `if (pa[i] > pb[i]) return 1; if (pa[i] < pb[i])
return -1;` — `none` means the loop continues.  A missing (`undefined`) or
non-numeric (NaN) component satisfies neither strict comparison. -/
def cmpIdx (pa pb : List (Option Int)) (i : Nat) : Option Int :=
  match (nth pa i).join, (nth pb i).join with
  | some x, some y => if x > y then some 1 else if x < y then some (-1) else none
  | _, _ => none

/-- `compareVersions` from src/unnamed/part_000 (and src/pull.js): split
both arguments on `.`, convert components with `Number`, compare the
first three component positions in order. -/
def compareVersions (a b : Str) : Int :=
  let pa := (splitOn '.' a).map jsNumber
  let pb := (splitOn '.' b).map jsNumber
  match cmpIdx pa pb 0 with
  | some r => r
  | none =>
    match cmpIdx pa pb 1 with
    | some r => r
    | none =>
      match cmpIdx pa pb 2 with
      | some r => r
      | none => 0

/-- JS `x || null` on a possibly-missing string field: `undefined` and the
falsy empty string both give `null`. -/
def jsOrNull (o : Option Str) : Option Str :=
  match o with
  | some s => if s = [] then none else some s
  | none => none

/-- JS `x || d` on a possibly-missing string field with a string default:
`undefined` and the falsy empty string both give the default. -/
def jsOrDefault (o : Option Str) (d : Str) : Str :=
  match o with
  | some s => if s = [] then d else s
  | none => d

/-- One value of the metadata mapping (spec §3 ScriptRecord; the fields the
code reads/writes in scripts-meta.json / versions.json).  Absent JSON
fields are `none`. -/
structure ScriptRecord where
  version : Option Str
  type : Option Str
  hash : Option Str
  lastUpdated : Option Str
deriving DecidableEq

def emptyRecord : ScriptRecord := ⟨none, none, none, none⟩

/-- A metadata document: a JS object mapping script name to record,
modelled as an association list in insertion order (`Object.entries`
iterates in that order). -/
abbrev MetaDoc := List (Path × ScriptRecord)

/-- JS property read `obj[name]`: first binding of the key, `none` when
absent. -/
def lookupMeta : MetaDoc → Path → Option ScriptRecord
  | [], _ => none
  | (k, v) :: rest, n => if k = n then some v else lookupMeta rest n

/-- JS property write `obj[name] = v`: overwrite the existing binding in
place, or append a new one. -/
def setKey : MetaDoc → Path → ScriptRecord → MetaDoc
  | [], k, v => [(k, v)]
  | (k2, v2) :: rest, k, v => if k2 = k then (k, v) :: rest else (k2, v2) :: setKey rest k v

def v000 : Str := ("0.0.0").toList

/-- The local file path used by the pull loop for a script name:
`fm.joinPath(dir, name + ".js")`, with the constant documents-directory
prefix omitted. -/
def localPathOf (name : Str) : Path := name ++ (".js").toList

/-- `localMeta[name] || {}` in the classification loop. -/
def localRecordOf (localMeta : MetaDoc) (name : Str) : ScriptRecord :=
  (lookupMeta localMeta name).getD emptyRecord

/-- The version comparison computed by the pull classification loop:
`compareVersions(remoteData.version || "0.0.0", localData.version || "0.0.0")`. -/
def pullCmp (localMeta : MetaDoc) (name : Str) (remoteData : ScriptRecord) : Int :=
  compareVersions (jsOrDefault remoteData.version v000)
    (jsOrDefault (localRecordOf localMeta name).version v000)

/-- Which of the four result lists of the pull classification loop an entry
lands in. -/
inductive Classification
  | NEW
  | SKIP
  | UPDATE
  | CONFLICT
deriving DecidableEq

/-- The classification branch chain of the pull loop in
src/unnamed/part_000 for one `(name, remoteData)` entry of the remote
metadata document.  `none` would mean no branch fired (unreachable by
trichotomy of `cmp`, but kept to mirror the source's `else if` chain). -/
def classifyEntry (localMeta : MetaDoc) (fs : Path → Option Content) (name : Str)
    (remoteData : ScriptRecord) : Option Classification :=
  let localData := localRecordOf localMeta name
  let localSavedHash := jsOrNull localData.hash
  let localGeneratedHash := (fs (localPathOf name)).map computeHash
  let remoteHash := jsOrNull remoteData.hash
  let cmp := pullCmp localMeta name remoteData
  if (fs (localPathOf name)).isSome = false then some .NEW
  else if localGeneratedHash = remoteHash then some .SKIP
  else if 0 < cmp then
    some (if localGeneratedHash ≠ localSavedHash then .CONFLICT else .UPDATE)
  else if cmp = 0 then
    some (if localGeneratedHash ≠ remoteHash then .CONFLICT else .SKIP)
  else if cmp < 0 then
    some (if localGeneratedHash ≠ remoteHash then .CONFLICT else .SKIP)
  else none

/-- The four partition lists produced by the classification loop
(`newScripts`, `updates`, `conflicts` carry the remote record; `skipped`
records only the name). -/
structure ClassifiedScripts where
  newScripts : List (Str × ScriptRecord)
  updates : List (Str × ScriptRecord)
  conflicts : List (Str × ScriptRecord)
  skipped : List Str
deriving DecidableEq

def classifyStep (localMeta : MetaDoc) (fs : Path → Option Content)
    (acc : ClassifiedScripts) (entry : Str × ScriptRecord) : ClassifiedScripts :=
  match classifyEntry localMeta fs entry.1 entry.2 with
  | some .NEW => ⟨acc.newScripts ++ [entry], acc.updates, acc.conflicts, acc.skipped⟩
  | some .UPDATE => ⟨acc.newScripts, acc.updates ++ [entry], acc.conflicts, acc.skipped⟩
  | some .CONFLICT => ⟨acc.newScripts, acc.updates, acc.conflicts ++ [entry], acc.skipped⟩
  | some .SKIP => ⟨acc.newScripts, acc.updates, acc.conflicts, acc.skipped ++ [entry.1]⟩
  | none => acc

/-- The whole `for (const [name, remoteData] of Object.entries(remoteMeta))`
classification loop of src/unnamed/part_000. -/
def classifyScripts (localMeta : MetaDoc) (fs : Path → Option Content)
    (remoteMeta : MetaDoc) : ClassifiedScripts :=
  remoteMeta.foldl (classifyStep localMeta fs) ⟨[], [], [], []⟩

/-- Fuel-driven most-significant-first decimal digits of a natural number. -/
def natToDecAux : Nat → Nat → List Char
  | 0, _ => []
  | fuel + 1, n =>
    if n < 10 then [Char.ofNat (48 + n)]
    else natToDecAux fuel (n / 10) ++ [Char.ofNat (48 + n % 10)]

def natToDec (n : Nat) : List Char := natToDecAux (n + 1) n

def intToDec (v : Int) : List Char :=
  if v < 0 then '-' :: natToDec (-v).toNat else natToDec v.toNat

/-- JS number-to-string conversion as used by `Array.prototype.join`: NaN
renders as "NaN", integers in decimal. -/
def numToStr (o : Option Int) : Str :=
  match o with
  | none => ("NaN").toList
  | some v => intToDec v

/-- `parts.join(".")` on the converted component array. -/
def joinDot (parts : List (Option Int)) : Str := List.intercalate ['.'] (parts.map numToStr)

/-- `bumpVersion` from src/scripts/Push.js (same body in
src/unnamed/part_001): split on `.`, convert with `Number`, mutate the
component array by bump kind, join with `.`.  Array writes are modelled
for in-bounds indices, which covers every three-component version. -/
def bumpVersion (version : Str) (type : Str) : Str :=
  let parts := (splitOn '.' version).map jsNumber
  let parts2 :=
    if type = ("major").toList then
      ((parts.set 0 ((nth parts 0).join.map (· + 1))).set 1 (some 0)).set 2 (some 0)
    else if type = ("minor").toList then
      (parts.set 1 ((nth parts 1).join.map (· + 1))).set 2 (some 0)
    else
      parts.set 2 ((nth parts 2).join.map (· + 1))
  joinDot parts2

/-- `loadFmJSON` from src/helpers/Git.js: empty object when the file does
not exist; parse the contents, and on a parse error log and return the
empty object.  `parse` is the `JSON.parse` oracle restricted to metadata
documents (`none` = throwing parse). -/
def loadFmJSON (parse : Content → Option MetaDoc) (fs : Path → Option Content)
    (path : Path) : MetaDoc :=
  match fs path with
  | none => []
  | some c =>
    match parse c with
    | some doc => doc
    | none => []

def metaFilePath : Path := ("config/scripts-meta.json").toList

/-- The remote path built by the pull download loop:
`script.type + "s/" + encodeURIComponent(script.name) + ".js"`
(`encodeURIComponent` modelled as the identity on the names considered; a
missing type stringifies as "undefined" under JS concatenation). -/
def remotePathOf (item : Str × ScriptRecord) : Path :=
  (item.2.type.getD ("undefined").toList) ++ ("s/").toList ++ item.1 ++ (".js").toList

/-- Whether the per-script remote content fetch succeeds. -/
def fetchOk (fetch : Path → Except Str Content) (item : Str × ScriptRecord) : Bool :=
  match fetch (remotePathOf item) with
  | .ok _ => true
  | .error _ => false

def fetchContent (fetch : Path → Except Str Content) (item : Str × ScriptRecord) : Content :=
  match fetch (remotePathOf item) with
  | .ok c => c
  | .error _ => []

/-- The pull download loop of src/unnamed/part_000: for each selected
script, fetch the remote content; on success write the local file and
replace the local metadata record with `{version, type, lastUpdated}`; on
failure log the name and continue.  Returns the final metadata document,
the local file writes in order, and the failed names in order. -/
def pullLoop (fetch : Path → Except Str Content) (now : Str) :
    List (Str × ScriptRecord) → MetaDoc → MetaDoc × List (Path × Content) × List Str
  | [], meta => (meta, [], [])
  | item :: rest, meta =>
    match fetch (remotePathOf item) with
    | .ok content =>
      let meta2 := setKey meta item.1 ⟨item.2.version, item.2.type, none, some now⟩
      let r := pullLoop fetch now rest meta2
      (r.1, (localPathOf item.1, content) :: r.2.1, r.2.2)
    | .error _ =>
      let r := pullLoop fetch now rest meta
      (r.1, r.2.1, item.1 :: r.2.2)

/-- Ambient collaborators of one run of the pull driver: the local
filesystem at batch start, the JSON.parse oracle, the remote metadata
fetch outcome, the per-path remote content fetch outcomes, the operator's
selection (`none` = cancel; the returned names are kept from the offered
new+update options), and the clock. -/
structure PullEnv where
  fs : Path → Option Content
  parse : Content → Option MetaDoc
  remoteMetaFetch : Except Str MetaDoc
  fileFetch : Path → Except Str Content
  chooseNames : List Str → Option (List Str)
  now : Str

/-- Observable outcome of a pull run: local script-file writes, the
metadata document written to config/scripts-meta.json (`none` when the run
returned before the save), and the names whose download failed. -/
structure PullResult where
  fileWrites : List (Path × Content)
  savedMeta : Option MetaDoc
  failed : List Str
deriving DecidableEq

/-- Tail of the pull flow once the selection is fixed: an empty selection
returns before any write, otherwise the download loop runs and the local
metadata document is saved once after the batch. -/
def pullSelected (env : PullEnv) (localMeta : MetaDoc)
    (selected : List (Str × ScriptRecord)) : PullResult :=
  if selected = [] then ⟨[], none, []⟩
  else
    let r := pullLoop env.fileFetch env.now selected localMeta
    ⟨r.2.1, some r.1, r.2.2⟩

/-- Pull flow after the remote metadata document arrived: classify, offer
new+updates, filter by the operator's selection (cancel returns before
any write). -/
def pullAfterRemote (env : PullEnv) (localMeta remoteMeta : MetaDoc) : PullResult :=
  let cls := classifyScripts localMeta env.fs remoteMeta
  let options := cls.newScripts ++ cls.updates
  match env.chooseNames (options.map (fun it => it.1)) with
  | none => ⟨[], none, []⟩
  | some names => pullSelected env localMeta (options.filter (fun it => names.contains it.1))

/-- The main flow of the pull script in src/unnamed/part_000: load local
metadata (soft), fetch remote metadata (hard: on error alert and return
before any write), then classify, select, download, save. -/
def pullDriver (env : PullEnv) : PullResult :=
  let localMeta := loadFmJSON env.parse env.fs metaFilePath
  match env.remoteMetaFetch with
  | .error _ => ⟨[], none, []⟩
  | .ok remoteMeta => pullAfterRemote env localMeta remoteMeta

/-- `fileName.replace(/\.js$/, "")`. -/
def stripJs (f : Path) : Path :=
  if (".js").toList.isSuffixOf f then f.take (f.length - 3) else f

/-- One iteration of the hash-refresh loop of src/scripts/Push.js: create
an empty record for the file's base name if missing, then rewrite the
record's `hash` and `lastUpdated` when the recorded hash (`|| null`)
differs from the recomputed one. -/
def refreshOne (meta : MetaDoc) (file : Path) (content : Content) (now : Str) : MetaDoc :=
  let hash := computeHash content
  let baseName := stripJs file
  let meta1 := if (lookupMeta meta baseName).isSome then meta else setKey meta baseName emptyRecord
  let existing := (lookupMeta meta1 baseName).getD emptyRecord
  if jsOrNull existing.hash = some hash then meta1
  else setKey meta1 baseName ⟨existing.version, existing.type, some hash, some now⟩

/-- The hash-refresh loop of src/scripts/Push.js over every local `.js`
file, recording the metadata document written to disk after each
iteration; a failed file read aborts the driver (`none`). -/
def refreshLoop (fs : Path → Option Content) (now : Str) :
    List Path → MetaDoc → Option MetaDoc × List MetaDoc
  | [], meta => (some meta, [])
  | f :: rest, meta =>
    match fs f with
    | none => (none, [])
    | some content =>
      let meta2 := refreshOne meta f content now
      let r := refreshLoop fs now rest meta2
      (r.1, meta2 :: r.2)

/-- Ambient collaborators of one run of the push driver
(src/scripts/Push.js): local filesystem, JSON.parse oracle, remote
metadata fetch outcome, the operator's multi-select (`none` = cancel),
the per-file type prompt (`none` = cancel that file), the per-file bump
kind prompt (`none` = cancel that file), the per-file upload outcome, and
the clock. -/
structure PushEnv where
  fs : Path → Option Content
  files : List Path
  parse : Content → Option MetaDoc
  remoteMetaFetch : Except Str MetaDoc
  chosen : Option (List Path)
  typeChoice : Path → Option Str
  bumpChoice : Path → Option Str
  uploadOk : Path → Bool
  now : Str

/-- The `script type` used for a selected file: the existing record's
`type` if truthy, otherwise the operator's prompt answer. -/
def resolvedType (env : PushEnv) (meta : MetaDoc) (fileName : Path) : Option Str :=
  match jsOrNull ((lookupMeta meta (stripJs fileName)).getD emptyRecord).type with
  | some t => some t
  | none => env.typeChoice fileName

/-- One iteration of the upload loop of src/scripts/Push.js: resolve the
type (cancel → continue), ask the bump kind (cancel → continue), then
rewrite `localMeta[fileName]` with the bumped version BEFORE attempting
the upload, and record the upload attempt's outcome. -/
def pushStep (env : PushEnv) (acc : MetaDoc × List (Path × Bool)) (fileName : Path) :
    MetaDoc × List (Path × Bool) :=
  let existing := (lookupMeta acc.1 (stripJs fileName)).getD emptyRecord
  match resolvedType env acc.1 fileName with
  | none => acc
  | some t =>
    match env.bumpChoice fileName with
    | none => acc
    | some kind =>
      let newVersion := bumpVersion (jsOrDefault existing.version v000) kind
      (setKey acc.1 fileName ⟨some newVersion, some t, none, some env.now⟩,
       acc.2 ++ [(fileName, env.uploadOk fileName)])

def pushLoop (env : PushEnv) (files : List Path) (meta : MetaDoc) :
    MetaDoc × List (Path × Bool) :=
  files.foldl (pushStep env) (meta, [])

/-- Observable outcome of a push run: the successive local writes of
config/scripts-meta.json made by the hash-refresh loop, the per-file
upload attempts with their outcomes, and the metadata document uploaded
to the repository at the end (`none` when the run returned early). -/
structure PushResult where
  localMetaWrites : List MetaDoc
  uploads : List (Path × Bool)
  finalMeta : Option MetaDoc
deriving DecidableEq

/-- Tail of the push flow once the selection is fixed: an empty selection
returns (the hash-refresh writes already happened), otherwise the upload
loop runs and the resulting metadata document is uploaded last. -/
def pushSelected (env : PushEnv) (meta1 : MetaDoc) (ws : List MetaDoc)
    (selected : List Path) : PushResult :=
  if selected = [] then ⟨ws, [], none⟩
  else
    let r := pushLoop env selected meta1
    ⟨ws, r.2, some r.1⟩

/-- Push flow after the hash-refresh loop: multi-select (cancel returns),
then upload. -/
def pushAfterRefresh (env : PushEnv) (meta1 : MetaDoc) (ws : List MetaDoc) : PushResult :=
  match env.chosen with
  | none => ⟨ws, [], none⟩
  | some chosenNames => pushSelected env meta1 ws (env.files.filter (fun f => chosenNames.contains f))

/-- The main flow of src/scripts/Push.js: load local metadata (soft),
fetch remote metadata (hard), require some `.js` files, refresh hashes
(persisting after each file), multi-select, run the upload loop, and
finally upload the updated metadata document. -/
def pushDriver (env : PushEnv) : PushResult :=
  let localMeta := loadFmJSON env.parse env.fs metaFilePath
  match env.remoteMetaFetch with
  | .error _ => ⟨[], [], none⟩
  | .ok _ =>
    if env.files = [] then ⟨[], [], none⟩
    else
      match refreshLoop env.fs env.now env.files localMeta with
      | (none, ws) => ⟨ws, [], none⟩
      | (some meta1, ws) => pushAfterRefresh env meta1 ws

/-- A concrete pull environment whose remote metadata fetch fails. -/
def envC7 : PullEnv :=
  ⟨fun _ => none, fun _ => none, Except.error (("boom").toList),
   fun _ => Except.error [], fun _ => none, []⟩

/-- A concrete push environment: one local file A.js (content code unit
65), no local metadata file, remote metadata fetch succeeds, A.js is
selected, its type prompt answers "script", its bump prompt answers
"patch", and its upload FAILS. -/
def envC8 : PushEnv :=
  ⟨fun p => if p = ("A.js").toList then some [65] else none,
   [("A.js").toList],
   fun _ => none,
   Except.ok [],
   some [("A.js").toList],
   fun _ => some (("script").toList),
   fun _ => some (("patch").toList),
   fun _ => false,
   ("T").toList⟩

/-- A concrete pull environment: local metadata has a record "Old", the
remote metadata offers a script "New" with no local file, the operator
selects everything, and the download succeeds. -/
def envC9pull : PullEnv :=
  ⟨fun p => if p = metaFilePath then some [1] else none,
   fun _ => some [((("Old").toList), emptyRecord)],
   Except.ok [((("New").toList),
     ⟨some (("1.0.0").toList), some (("script").toList), some (("ab").toList), none⟩)],
   fun _ => Except.ok [66],
   fun l => some l,
   ("T").toList⟩

/-- The metadata document saved by a pull run in `envC9pull`. -/
def metaC9 : MetaDoc :=
  [((("Old").toList), emptyRecord),
   ((("New").toList), ⟨some (("1.0.0").toList), some (("script").toList), none, some (("T").toList)⟩)]

/-- Like `envC8` but with a pre-existing local metadata record "Old". -/
def envC9push : PushEnv :=
  ⟨fun p => if p = ("A.js").toList then some [65] else if p = metaFilePath then some [1] else none,
   [("A.js").toList],
   fun _ => some [((("Old").toList), emptyRecord)],
   Except.ok [],
   some [("A.js").toList],
   fun _ => some (("script").toList),
   fun _ => some (("patch").toList),
   fun _ => false,
   ("T").toList⟩

/-- Lexicographic triple comparison, as the spec's words describe
`compareVersions`: major first, then minor, then patch, each component an
integer. -/
def lexCompare (p q : Int × Int × Int) : Int :=
  if p.1 > q.1 then 1
  else if p.1 < q.1 then -1
  else if p.2.1 > q.2.1 then 1
  else if p.2.1 < q.2.1 then -1
  else if p.2.2 > q.2.2 then 1
  else if p.2.2 < q.2.2 then -1
  else 0

theorem natToHexAux_ne_nil (fuel n : Nat) : natToHexAux (fuel + 1) n ≠ [] := by
  unfold natToHexAux
  split <;> simp

theorem computeHash_ne_nil (s : Content) : computeHash s ≠ [] := by
  unfold computeHash intToHex natToHex
  split
  · simp
  · exact natToHexAux_ne_nil _ _

theorem nth_mem {α : Type} {l : List α} {i : Nat} {v : α} (h : nth l i = some v) : v ∈ l := by
  induction l generalizing i with
  | nil => simp [nth] at h
  | cons x xs ih =>
    cases i with
    | zero => simp [nth] at h; simp [h]
    | succ j => exact List.mem_cons_of_mem x (ih h)

theorem cmpIdx_left_none {pa pb : List (Option Int)} {i : Nat}
    (h : ∀ o ∈ pa, o = none) : cmpIdx pa pb i = none := by
  unfold cmpIdx
  cases hn : nth pa i with
  | none => simp
  | some o =>
    have : o = none := h o (nth_mem hn)
    subst this
    simp

theorem cmpIdx_right_none {pa pb : List (Option Int)} {i : Nat}
    (h : ∀ o ∈ pb, o = none) : cmpIdx pa pb i = none := by
  unfold cmpIdx
  cases hn : nth pb i with
  | none => cases (nth pa i).join <;> simp
  | some o =>
    have : o = none := h o (nth_mem hn)
    subst this
    cases (nth pa i).join <;> simp

/-- Claim C3: `computeHash` is a deterministic pure function of the input:
it folds `hash = (hash << 5) - hash + c` with 32-bit signed truncation
over the UTF-16 code units from seed 0 and renders the signed result in
hexadecimal; this agrees with the spec's `hash * 31 + c` description, and
two evaluations on the same input are equal. -/
theorem claim_c3 (s : Content) :
    computeHash s = intToHex (s.foldl hashStep 0)
    ∧ computeHash s = computeHashSpec s
    ∧ computeHash s = computeHash s := by
  refine ⟨rfl, ?_, rfl⟩
  unfold computeHash computeHashSpec
  rw [foldl_hashStep_eq]

/-- Claim C4: on well-formed three-component versions, `compareVersions`
is the lexicographic integer comparison of the (major, minor, patch)
triples, and in particular orders "1.9.9" below "2.0.0". -/
theorem claim_c4 (a b a1 a2 a3 b1 b2 b3 : Str) (x1 x2 x3 y1 y2 y3 : Int)
    (hsa : splitOn '.' a = [a1, a2, a3]) (hsb : splitOn '.' b = [b1, b2, b3])
    (ha1 : jsNumber a1 = some x1) (ha2 : jsNumber a2 = some x2) (ha3 : jsNumber a3 = some x3)
    (hb1 : jsNumber b1 = some y1) (hb2 : jsNumber b2 = some y2) (hb3 : jsNumber b3 = some y3) :
    compareVersions a b = lexCompare (x1, x2, x3) (y1, y2, y3)
    ∧ compareVersions (("1.9.9").toList) (("2.0.0").toList) = -1
    ∧ compareVersions (("1.2.3").toList) (("1.2.3").toList) = 0
    ∧ compareVersions (("2.0.0").toList) (("1.9.9").toList) = 1 := by
  refine ⟨?_, by decide, by decide, by decide⟩
  have ea : (splitOn '.' a).map jsNumber = [some x1, some x2, some x3] := by
    rw [hsa]; simp [ha1, ha2, ha3]
  have eb : (splitOn '.' b).map jsNumber = [some y1, some y2, some y3] := by
    rw [hsb]; simp [hb1, hb2, hb3]
  simp only [compareVersions, ea, eb, cmpIdx, nth, Option.join, lexCompare]
  rcases lt_trichotomy x1 y1 with h1 | h1 | h1
  · simp [h1, lt_asymm h1, gt_iff_lt]
  · subst h1
    rcases lt_trichotomy x2 y2 with h2 | h2 | h2
    · simp [h2, lt_asymm h2, gt_iff_lt]
    · subst h2
      rcases lt_trichotomy x3 y3 with h3 | h3 | h3
      · simp [h3, lt_asymm h3, gt_iff_lt]
      · subst h3; simp
      · simp [h3, lt_asymm h3, gt_iff_lt]
    · simp [h2, lt_asymm h2, gt_iff_lt]
  · simp [h1, lt_asymm h1, gt_iff_lt]

/-- Claim C6 (counterexample): "abc" is a malformed version (its single
component converts to NaN), yet `compareVersions` raises no error and
returns 0 for it against "1.2.3" — the very value it returns for two
equal well-formed versions. -/
theorem claim_c6_counterexample :
    jsNumber (("abc").toList) = none
    ∧ compareVersions (("abc").toList) (("1.2.3").toList) = 0
    ∧ compareVersions (("1.2.3").toList) (("1.2.3").toList) = 0 := by
  decide

/-- Claim C6 (amended): `compareVersions` signals no error on malformed
versions: a non-numeric component compares neither greater nor less, so a
version all of whose components are malformed is silently treated as
equal (result 0) to any other version, on either side. -/
theorem claim_c6 (a b : Str) (h : ∀ s ∈ splitOn '.' a, jsNumber s = none) :
    compareVersions a b = 0 ∧ compareVersions b a = 0 := by
  have hall : ∀ o ∈ (splitOn '.' a).map jsNumber, o = none := by
    intro o ho
    rcases List.mem_map.mp ho with ⟨s, hs, rfl⟩
    exact h s hs
  constructor
  · simp [compareVersions, cmpIdx_left_none hall]
  · simp [compareVersions, cmpIdx_right_none hall]

/-- Claim C5: `bumpVersion` is a pure function; on a well-formed version
"x1.x2.x3", kind "major" yields "(x1+1).0.0", kind "minor" yields
"x1.(x2+1).0", and kind "patch" yields "x1.x2.(x3+1)", with the quoted
concrete instances. -/
theorem claim_c5 (version c1 c2 c3 : Str) (x1 x2 x3 : Int)
    (hs : splitOn '.' version = [c1, c2, c3])
    (h1 : jsNumber c1 = some x1) (h2 : jsNumber c2 = some x2) (h3 : jsNumber c3 = some x3) :
    bumpVersion version (("major").toList) = joinDot [some (x1 + 1), some 0, some 0]
    ∧ bumpVersion version (("minor").toList) = joinDot [some x1, some (x2 + 1), some 0]
    ∧ bumpVersion version (("patch").toList) = joinDot [some x1, some x2, some (x3 + 1)]
    ∧ bumpVersion (("1.2.3").toList) (("patch").toList) = ("1.2.4").toList
    ∧ bumpVersion (("1.2.3").toList) (("minor").toList) = ("1.3.0").toList
    ∧ bumpVersion (("1.2.3").toList) (("major").toList) = ("2.0.0").toList := by
  have e : (splitOn '.' version).map jsNumber = [some x1, some x2, some x3] := by
    rw [hs]; simp [h1, h2, h3]
  refine ⟨?_, ?_, ?_, by decide, by decide, by decide⟩ <;>
    simp [bumpVersion, e, nth, List.set]

/-- Claim C1: in the pull classification, a name whose local file exists
and whose freshly computed content hash equals the remote record's hash
is classified SKIP, whatever the two version strings are (they are
arbitrary here, buried in `localMeta` and `remoteData`), so
content-identical text is never classified UPDATE or CONFLICT. -/
theorem claim_c1 (localMeta : MetaDoc) (fs : Path → Option Content) (name : Str)
    (remoteData : ScriptRecord) (content : Content)
    (hfs : fs (localPathOf name) = some content)
    (hhash : remoteData.hash = some (computeHash content)) :
    classifyEntry localMeta fs name remoteData = some .SKIP := by
  simp [classifyEntry, hfs, hhash, jsOrNull, computeHash_ne_nil content]

/-- Claim C2: in the pull classification, for a locally existing file
whose content hash differs from the remote hash: when the remote version
is strictly ahead the entry is UPDATE exactly when the recomputed hash
equals the hash saved in the local record (and CONFLICT otherwise), and
when the comparison is zero or negative the entry is CONFLICT. -/
theorem claim_c2 (localMeta : MetaDoc) (fs : Path → Option Content) (name : Str)
    (remoteData : ScriptRecord) (content : Content)
    (hfs : fs (localPathOf name) = some content)
    (hne : (some (computeHash content) : Option Str) ≠ jsOrNull remoteData.hash) :
    (0 < pullCmp localMeta name remoteData →
      classifyEntry localMeta fs name remoteData =
        some (if (some (computeHash content) : Option Str) =
                jsOrNull (localRecordOf localMeta name).hash
              then .UPDATE else .CONFLICT))
    ∧ (pullCmp localMeta name remoteData = 0 →
        classifyEntry localMeta fs name remoteData = some .CONFLICT)
    ∧ (pullCmp localMeta name remoteData < 0 →
        classifyEntry localMeta fs name remoteData = some .CONFLICT) := by
  refine ⟨fun hcmp => ?_, fun hcmp => ?_, fun hcmp => ?_⟩
  · by_cases heq :
      (some (computeHash content) : Option Str) = jsOrNull (localRecordOf localMeta name).hash
    · simp only [classifyEntry, hfs, hcmp, heq]
      simp only [Option.isSome_some, Option.map_some, hcmp, if_true, Bool.true_eq_false,
        if_false, ite_not, Option.map]
      rw [if_neg hne, if_pos heq]
    · simp [classifyEntry, hfs, hne, hcmp, heq]
  · simp [classifyEntry, hfs, hne, hcmp]
  · have h1 : ¬ (0 < pullCmp localMeta name remoteData) := by omega
    have h2 : pullCmp localMeta name remoteData ≠ 0 := by omega
    simp [classifyEntry, hfs, hne, hcmp, h1, h2]

/-- Claim C10: in the pull classification, a locally existing file with no
record in the local metadata document, differing content hash, and the
remote version strictly ahead of the defaulted "0.0.0" local version is
classified CONFLICT, never UPDATE: the generated hash (a string) can
never equal the absent saved hash (null). -/
theorem claim_c10 (localMeta : MetaDoc) (fs : Path → Option Content) (name : Str)
    (remoteData : ScriptRecord) (content : Content)
    (hfs : fs (localPathOf name) = some content)
    (hmeta : lookupMeta localMeta name = none)
    (hne : (some (computeHash content) : Option Str) ≠ jsOrNull remoteData.hash)
    (hcmp : 0 < compareVersions (jsOrDefault remoteData.version v000) v000) :
    classifyEntry localMeta fs name remoteData = some .CONFLICT := by
  have hrec : localRecordOf localMeta name = emptyRecord := by
    simp [localRecordOf, hmeta]
  have hcmp2 : 0 < pullCmp localMeta name remoteData := by
    simpa [pullCmp, hrec, emptyRecord, jsOrDefault] using hcmp
  have hsaved : jsOrNull (localRecordOf localMeta name).hash = none := by
    simp [hrec, emptyRecord, jsOrNull]
  simp [classifyEntry, hfs, hne, hcmp2, hsaved]

theorem lookupMeta_setKey_self (m : MetaDoc) (k : Path) (v : ScriptRecord) :
    lookupMeta (setKey m k v) k = some v := by
  induction m with
  | nil => simp [setKey, lookupMeta]
  | cons p rest ih =>
    obtain ⟨k2, v2⟩ := p
    by_cases h : k2 = k
    · simp [setKey, h, lookupMeta]
    · simp [setKey, h, lookupMeta, ih]

theorem lookupMeta_setKey_ne (m : MetaDoc) (k n : Path) (v : ScriptRecord) (h : n ≠ k) :
    lookupMeta (setKey m k v) n = lookupMeta m n := by
  have hkn : k ≠ n := fun hh => h hh.symm
  induction m with
  | nil => simp [setKey, lookupMeta, hkn]
  | cons p rest ih =>
    obtain ⟨k2, v2⟩ := p
    by_cases h2 : k2 = k
    · subst h2; simp [setKey, lookupMeta, hkn]
    · simp [setKey, h2, lookupMeta, ih]

theorem lookupMeta_setKey_isSome (m : MetaDoc) (k n : Path) (v : ScriptRecord)
    (h : (lookupMeta m n).isSome = true) :
    (lookupMeta (setKey m k v) n).isSome = true := by
  by_cases hn : n = k
  · subst hn; simp [lookupMeta_setKey_self]
  · rw [lookupMeta_setKey_ne _ _ _ _ hn]; exact h

theorem pullLoop_lookup_of_no_success (fetch : Path → Except Str Content) (now : Str)
    (items : List (Str × ScriptRecord)) :
    ∀ (meta : MetaDoc) (n : Path), (∀ it ∈ items, it.1 = n → fetchOk fetch it = false) →
      lookupMeta (pullLoop fetch now items meta).1 n = lookupMeta meta n := by
  induction items with
  | nil => intro meta n _; rfl
  | cons item rest ih =>
    intro meta n h
    cases hf : fetch (remotePathOf item) with
    | ok content =>
      have hne : n ≠ item.1 := by
        intro he
        have := h item (List.mem_cons_self item rest) he.symm
        simp [fetchOk, hf] at this
      simp only [pullLoop, hf]
      rw [ih _ n (fun it hit he => h it (List.mem_cons_of_mem item hit) he)]
      exact lookupMeta_setKey_ne _ _ _ _ hne
    | error e =>
      simp only [pullLoop, hf]
      exact ih _ n (fun it hit he => h it (List.mem_cons_of_mem item hit) he)

theorem pullLoop_failed (fetch : Path → Except Str Content) (now : Str)
    (items : List (Str × ScriptRecord)) :
    ∀ meta : MetaDoc, (pullLoop fetch now items meta).2.2 =
      (items.filter (fun it => !(fetchOk fetch it))).map (fun it => it.1) := by
  induction items with
  | nil => intro meta; rfl
  | cons item rest ih =>
    intro meta
    cases hf : fetch (remotePathOf item) with
    | ok content => simp [pullLoop, hf, fetchOk, ih]
    | error e => simp [pullLoop, hf, fetchOk, ih]

theorem pullLoop_writes (fetch : Path → Except Str Content) (now : Str)
    (items : List (Str × ScriptRecord)) :
    ∀ meta : MetaDoc, (pullLoop fetch now items meta).2.1 =
      (items.filter (fun it => fetchOk fetch it)).map
        (fun it => (localPathOf it.1, fetchContent fetch it)) := by
  induction items with
  | nil => intro meta; rfl
  | cons item rest ih =>
    intro meta
    cases hf : fetch (remotePathOf item) with
    | ok content => simp [pullLoop, hf, fetchOk, fetchContent, ih]
    | error e => simp [pullLoop, hf, fetchOk, fetchContent, ih]

theorem pullLoop_lookup_isSome (fetch : Path → Except Str Content) (now : Str)
    (items : List (Str × ScriptRecord)) :
    ∀ (meta : MetaDoc) (n : Path), (lookupMeta meta n).isSome = true →
      (lookupMeta (pullLoop fetch now items meta).1 n).isSome = true := by
  induction items with
  | nil => intro meta n h; exact h
  | cons item rest ih =>
    intro meta n h
    cases hf : fetch (remotePathOf item) with
    | ok content =>
      simp only [pullLoop, hf]
      exact ih _ n (lookupMeta_setKey_isSome _ _ _ _ h)
    | error e =>
      simp only [pullLoop, hf]
      exact ih _ n h

theorem ite_lookup_isSome {c : Prop} [Decidable c] {m1 m2 : MetaDoc} {n : Path}
    (h1 : (lookupMeta m1 n).isSome = true) (h2 : (lookupMeta m2 n).isSome = true) :
    (lookupMeta (if c then m1 else m2) n).isSome = true := by
  split <;> assumption

theorem refreshOne_lookup_isSome (meta : MetaDoc) (file : Path) (content : Content) (now : Str)
    (n : Path) (h : (lookupMeta meta n).isSome = true) :
    (lookupMeta (refreshOne meta file content now) n).isSome = true := by
  simp only [refreshOne]
  have hm1 :
      (lookupMeta
        (if (lookupMeta meta (stripJs file)).isSome then meta
          else setKey meta (stripJs file) emptyRecord) n).isSome = true :=
    ite_lookup_isSome h (lookupMeta_setKey_isSome _ _ _ _ h)
  exact ite_lookup_isSome hm1 (lookupMeta_setKey_isSome _ _ _ _ hm1)

theorem refreshLoop_lookup_isSome (fs : Path → Option Content) (now : Str) :
    ∀ (files : List Path) (meta m : MetaDoc),
      (refreshLoop fs now files meta).1 = some m →
      ∀ n, (lookupMeta meta n).isSome = true → (lookupMeta m n).isSome = true := by
  intro files
  induction files with
  | nil =>
    intro meta m h n hn
    simp only [refreshLoop] at h
    cases h
    exact hn
  | cons f rest ih =>
    intro meta m h n hn
    cases hf : fs f with
    | none => simp [refreshLoop, hf] at h
    | some content =>
      simp only [refreshLoop, hf] at h
      exact ih _ m h n (refreshOne_lookup_isSome _ _ _ _ _ hn)

theorem pushStep_lookup_isSome (env : PushEnv) (acc : MetaDoc × List (Path × Bool))
    (fileName : Path) (n : Path) (h : (lookupMeta acc.1 n).isSome = true) :
    (lookupMeta (pushStep env acc fileName).1 n).isSome = true := by
  simp only [pushStep]
  cases resolvedType env acc.1 fileName with
  | none => exact h
  | some t =>
    cases env.bumpChoice fileName with
    | none => exact h
    | some kind => exact lookupMeta_setKey_isSome _ _ _ _ h

theorem pushLoop_lookup_isSome (env : PushEnv) :
    ∀ (files : List Path) (acc : MetaDoc × List (Path × Bool)) (n : Path),
      (lookupMeta acc.1 n).isSome = true →
      (lookupMeta (files.foldl (pushStep env) acc).1 n).isSome = true := by
  intro files
  induction files with
  | nil => intro acc n h; exact h
  | cons f rest ih =>
    intro acc n h
    exact ih _ n (pushStep_lookup_isSome env acc f n h)

theorem pullSelected_saved (env : PullEnv) (localMeta : MetaDoc)
    (selected : List (Str × ScriptRecord)) (m : MetaDoc)
    (h : (pullSelected env localMeta selected).savedMeta = some m) :
    m = (pullLoop env.fileFetch env.now selected localMeta).1 := by
  simp only [pullSelected] at h
  split at h
  · cases h
  · cases h
    rfl

theorem pullAfterRemote_saved (env : PullEnv) (localMeta remoteMeta : MetaDoc) (m : MetaDoc)
    (h : (pullAfterRemote env localMeta remoteMeta).savedMeta = some m) :
    ∀ n, (lookupMeta localMeta n).isSome = true → (lookupMeta m n).isSome = true := by
  intro n hn
  simp only [pullAfterRemote] at h
  cases hc :
      env.chooseNames
        (((classifyScripts localMeta env.fs remoteMeta).newScripts ++
            (classifyScripts localMeta env.fs remoteMeta).updates).map (fun it => it.1)) with
  | none => rw [hc] at h; cases h
  | some names =>
    rw [hc] at h
    rw [pullSelected_saved env localMeta _ m h]
    exact pullLoop_lookup_isSome _ _ _ _ n hn

theorem pushSelected_final (env : PushEnv) (meta1 : MetaDoc) (ws : List MetaDoc)
    (selected : List Path) (m : MetaDoc)
    (h : (pushSelected env meta1 ws selected).finalMeta = some m) :
    m = (pushLoop env selected meta1).1 := by
  simp only [pushSelected] at h
  split at h
  · cases h
  · cases h
    rfl

theorem pushAfterRefresh_final (env : PushEnv) (meta1 : MetaDoc) (ws : List MetaDoc) (m : MetaDoc)
    (h : (pushAfterRefresh env meta1 ws).finalMeta = some m) :
    ∀ n, (lookupMeta meta1 n).isSome = true → (lookupMeta m n).isSome = true := by
  intro n hn
  simp only [pushAfterRefresh] at h
  cases hc : env.chosen with
  | none => rw [hc] at h; cases h
  | some chosenNames =>
    rw [hc] at h
    rw [pushSelected_final env meta1 ws _ m h]
    exact pushLoop_lookup_isSome env _ _ n hn

/-- Claim C7: loading the local metadata document fails soft (empty
mapping when the file is absent or its contents do not parse), while a
failed remote metadata fetch makes the pull driver return before any
local file write or metadata save. -/
theorem claim_c7 :
    (∀ (parse : Content → Option MetaDoc) (fs : Path → Option Content) (path : Path),
      fs path = none → loadFmJSON parse fs path = [])
    ∧ (∀ (parse : Content → Option MetaDoc) (fs : Path → Option Content) (path : Path)
        (c : Content), fs path = some c → parse c = none → loadFmJSON parse fs path = [])
    ∧ (∀ (env : PullEnv) (e : Str), env.remoteMetaFetch = Except.error e →
        pullDriver env = ⟨[], none, []⟩) := by
  refine ⟨?_, ?_, ?_⟩
  · intro parse fs path h
    simp [loadFmJSON, h]
  · intro parse fs path c h1 h2
    simp [loadFmJSON, h1, h2]
  · intro env e h
    simp [pullDriver, h]

theorem claim_c7_witness :
    loadFmJSON (fun _ => none) (fun _ => none) metaFilePath = []
    ∧ loadFmJSON (fun _ => none) (fun _ => some [42]) metaFilePath = []
    ∧ pullDriver envC7 = ⟨[], none, []⟩ :=
  ⟨claim_c7.1 (fun _ => none) (fun _ => none) metaFilePath rfl,
   claim_c7.2.1 (fun _ => none) (fun _ => some [42]) metaFilePath [42] rfl rfl,
   claim_c7.2.2 envC7 (("boom").toList) rfl⟩

/-- Claim C8 (counterexample): in the push driver of src/scripts/Push.js,
a script whose upload fails still gets a fresh metadata record: in
`envC8` the only script's upload fails, yet the metadata document
uploaded at batch end records the bumped version 0.0.1 for it, while the
batch-start metadata had no record for that key. -/
theorem claim_c8_counterexample :
    (pushDriver envC8).uploads = [((("A.js").toList), false)]
    ∧ lookupMeta ((pushDriver envC8).finalMeta.getD []) (("A.js").toList) =
        some ⟨some (("0.0.1").toList), some (("script").toList), none, some (("T").toList)⟩
    ∧ lookupMeta (loadFmJSON envC8.parse envC8.fs metaFilePath) (("A.js").toList) = none := by
  decide

/-- Claim C8 (amended): in the pull driver a per-script download failure
is logged and does not stop the loop, and only successfully downloaded
scripts get new metadata (a name with no successful download keeps its
previous record); in the push driver the metadata record is rewritten
with the bumped version before the upload is attempted, independently of
the upload's outcome. -/
theorem claim_c8 :
    (∀ (fetch : Path → Except Str Content) (now : Str) (items : List (Str × ScriptRecord))
        (meta : MetaDoc) (n : Path),
      (∀ it ∈ items, it.1 = n → fetchOk fetch it = false) →
      lookupMeta (pullLoop fetch now items meta).1 n = lookupMeta meta n)
    ∧ (∀ (fetch : Path → Except Str Content) (now : Str) (items : List (Str × ScriptRecord))
        (meta : MetaDoc),
      (pullLoop fetch now items meta).2.2 =
        (items.filter (fun it => !(fetchOk fetch it))).map (fun it => it.1)
      ∧ (pullLoop fetch now items meta).2.1 =
        (items.filter (fun it => fetchOk fetch it)).map
          (fun it => (localPathOf it.1, fetchContent fetch it)))
    ∧ (∀ (env : PushEnv) (acc : MetaDoc × List (Path × Bool)) (fileName : Path) (t kind : Str),
      resolvedType env acc.1 fileName = some t →
      env.bumpChoice fileName = some kind →
      pushStep env acc fileName =
        (setKey acc.1 fileName
          ⟨some (bumpVersion
              (jsOrDefault ((lookupMeta acc.1 (stripJs fileName)).getD emptyRecord).version v000)
              kind),
            some t, none, some env.now⟩,
          acc.2 ++ [(fileName, env.uploadOk fileName)])) := by
  refine ⟨?_, ?_, ?_⟩
  · intro fetch now items meta n h
    exact pullLoop_lookup_of_no_success fetch now items meta n h
  · intro fetch now items meta
    exact ⟨pullLoop_failed fetch now items meta, pullLoop_writes fetch now items meta⟩
  · intro env acc fileName t kind ht hk
    simp [pushStep, ht, hk]

theorem claim_c8_witness :
    lookupMeta
        (pullLoop (fun _ => Except.error []) [] [((("B").toList), emptyRecord)] []).1
        (("B").toList) = lookupMeta ([] : MetaDoc) (("B").toList)
    ∧ pushStep envC8 ([], []) (("A.js").toList) =
      (setKey [] (("A.js").toList)
        ⟨some (bumpVersion
            (jsOrDefault ((lookupMeta ([] : MetaDoc) (stripJs (("A.js").toList))).getD
              emptyRecord).version v000) (("patch").toList)),
          some (("script").toList), none, some envC8.now⟩,
        [] ++ [((("A.js").toList), envC8.uploadOk (("A.js").toList))]) :=
  ⟨claim_c8.1 (fun _ => Except.error []) [] [((("B").toList), emptyRecord)] [] (("B").toList)
      (by decide),
   claim_c8.2.2 envC8 ([], []) (("A.js").toList) (("script").toList) (("patch").toList)
      (by decide) rfl⟩

/-- Claim C9: neither driver ever removes an entry from the metadata
document: every name present in the local metadata mapping loaded at
batch start is still present in the document persisted at batch end (the
pull driver's saved local document, the push driver's uploaded
document). -/
theorem claim_c9 :
    (∀ (env : PullEnv) (m : MetaDoc), (pullDriver env).savedMeta = some m →
      ∀ n, (lookupMeta (loadFmJSON env.parse env.fs metaFilePath) n).isSome = true →
        (lookupMeta m n).isSome = true)
    ∧ (∀ (env : PushEnv) (m : MetaDoc), (pushDriver env).finalMeta = some m →
      ∀ n, (lookupMeta (loadFmJSON env.parse env.fs metaFilePath) n).isSome = true →
        (lookupMeta m n).isSome = true) := by
  constructor
  · intro env m hm n hn
    simp only [pullDriver] at hm
    cases hr : env.remoteMetaFetch with
    | error e => rw [hr] at hm; cases hm
    | ok remoteMeta =>
      rw [hr] at hm
      exact pullAfterRemote_saved env _ remoteMeta m hm n hn
  · intro env m hm n hn
    simp only [pushDriver] at hm
    cases hr : env.remoteMetaFetch with
    | error e => rw [hr] at hm; cases hm
    | ok remoteMeta =>
      rw [hr] at hm
      by_cases hfiles : env.files = []
      · rw [if_pos hfiles] at hm; cases hm
      · rw [if_neg hfiles] at hm
        cases hrl : (refreshLoop env.fs env.now env.files
            (loadFmJSON env.parse env.fs metaFilePath)) with
        | mk r1 r2 =>
          rw [hrl] at hm
          cases r1 with
          | none => cases hm
          | some meta1 =>
            refine pushAfterRefresh_final env meta1 r2 m hm n ?_
            refine refreshLoop_lookup_isSome env.fs env.now env.files _ meta1 ?_ n hn
            rw [hrl]

theorem claim_c9_witness :
    (pullDriver envC9pull).savedMeta = some metaC9
    ∧ (lookupMeta metaC9 (("Old").toList)).isSome = true
    ∧ (lookupMeta ((pushDriver envC9push).finalMeta.getD []) (("Old").toList)).isSome = true := by
  refine ⟨by decide, claim_c9.1 envC9pull metaC9 (by decide) (("Old").toList) (by decide), ?_⟩
  have h := claim_c9.2 envC9push ((pushDriver envC9push).finalMeta.getD [])
    (by decide) (("Old").toList) (by decide)
  exact h

theorem claim_c1_witness :
    classifyEntry [] (fun p => if p = ("Foo.js").toList then some [65] else none)
      (("Foo").toList) ⟨some (("2.0.0").toList), none, some (("41").toList), none⟩ =
      some Classification.SKIP :=
  claim_c1 [] (fun p => if p = ("Foo.js").toList then some [65] else none) (("Foo").toList)
    ⟨some (("2.0.0").toList), none, some (("41").toList), none⟩ [65] (by decide) (by decide)

theorem claim_c2_witness :
    classifyEntry [((("Foo").toList), ⟨some (("1.0.0").toList), none, some (("41").toList), none⟩)]
      (fun p => if p = ("Foo.js").toList then some [65] else none) (("Foo").toList)
      ⟨some (("2.0.0").toList), none, some (("zz").toList), none⟩ =
      some (if (some (computeHash [65]) : Option Str) =
          jsOrNull (localRecordOf
            [((("Foo").toList), ⟨some (("1.0.0").toList), none, some (("41").toList), none⟩)]
            (("Foo").toList)).hash
        then Classification.UPDATE else Classification.CONFLICT) :=
  (claim_c2 [((("Foo").toList), ⟨some (("1.0.0").toList), none, some (("41").toList), none⟩)]
    (fun p => if p = ("Foo.js").toList then some [65] else none) (("Foo").toList)
    ⟨some (("2.0.0").toList), none, some (("zz").toList), none⟩ [65]
    (by decide) (by decide)).1 (by decide)

theorem claim_c4_witness :
    compareVersions (("1.9.9").toList) (("2.0.0").toList) = lexCompare (1, 9, 9) (2, 0, 0) :=
  (claim_c4 (("1.9.9").toList) (("2.0.0").toList) (("1").toList) (("9").toList) (("9").toList)
    (("2").toList) (("0").toList) (("0").toList) 1 9 9 2 0 0 (by decide) (by decide) (by decide)
    (by decide) (by decide) (by decide) (by decide) (by decide)).1

theorem claim_c5_witness :
    bumpVersion (("1.2.3").toList) (("major").toList) = joinDot [some (1 + 1), some 0, some 0] :=
  (claim_c5 (("1.2.3").toList) (("1").toList) (("2").toList) (("3").toList) 1 2 3
    (by decide) (by decide) (by decide) (by decide)).1

theorem claim_c6_witness :
    compareVersions (("abc").toList) (("1.2.3").toList) = 0
    ∧ compareVersions (("1.2.3").toList) (("abc").toList) = 0 :=
  claim_c6 (("abc").toList) (("1.2.3").toList) (by decide)

theorem claim_c10_witness :
    classifyEntry [] (fun p => if p = ("Foo.js").toList then some [65] else none)
      (("Foo").toList) ⟨some (("1.0.0").toList), none, some (("zz").toList), none⟩ =
      some Classification.CONFLICT :=
  claim_c10 [] (fun p => if p = ("Foo.js").toList then some [65] else none) (("Foo").toList)
    ⟨some (("1.0.0").toList), none, some (("zz").toList), none⟩ [65]
    (by decide) rfl (by decide) (by decide)

end Scriptable
